import Mathlib

/-!
Shallow embedding of `fetal_brain_qc/metrics/utils.py` (FetMRQC image-quality
metrics) and verification of its specification claims.

Modelling conventions:
* A numpy array is an `NDArray`: a shape together with the flattened data,
  with the numpy invariant `data.length = shape.prod`.
* Intensities are exact rationals (`ℚ`); derived statistics that involve
  `sqrt`/`log` live in `ℝ` (the idealisation of IEEE doubles).
* A numpy float NaN/Inf result is modelled as `Option ℝ` with `none` standing
  for the non-finite value.
* A raised Python exception is modelled as `Except PyError`.
* The external skimage routines (`structural_similarity`,
  `peak_signal_noise_ratio`) are opaque parameters of the functions that call
  them; only their documented shape checking is modelled at the call site.
-/

/-- Python exceptions that the modelled code paths can raise. -/
inductive PyError where
  /-- `ValueError("Input data shapes do not match")` from the explicit check in
  `normalized_cross_correlation`, and skimage's `check_shape_equality`. -/
  | shapeMismatch
  /-- the error `np.histogram2d` raises when the two flattened samples have
  different lengths. -/
  | lengthMismatch
  /-- `ValueError: The truth value of an array with more than one element is
  ambiguous`, raised by `if` on a multi-element boolean array. -/
  | ambiguousTruth
  /-- the error raised by `np.amax`/`np.amin` on an empty array. -/
  | emptyReduce
  deriving DecidableEq, Repr

/-- A numpy ndarray: shape and row-major flattened data, with the numpy
invariant that the data size is the product of the shape. -/
structure NDArray where
  shape : List Nat
  data : List ℚ
  wf : data.length = shape.prod

/-- Least element of a list of rationals (`np.amin` on nonempty data;
junk value 0 on `[]`, where numpy would raise). -/
def listMin : List ℚ → ℚ
  | [] => 0
  | [a] => a
  | a :: b :: l => min a (listMin (b :: l))

/-- Greatest element of a list of rationals (`np.amax` on nonempty data;
junk value 0 on `[]`, where numpy would raise). -/
def listMax : List ℚ → ℚ
  | [] => 0
  | [a] => a
  | a :: b :: l => max a (listMax (b :: l))

/-- Python `int(...)`: truncation of a rational toward zero. -/
def qtrunc (q : ℚ) : ℤ := if q < 0 then ⌈q⌉ else ⌊q⌋

/-- `x.size` for an ndarray. -/
def NDArray.size (x : NDArray) : ℕ := x.shape.prod

/-- `x.mean()`: the mean of the flattened data. -/
def meanQ (x : NDArray) : ℚ := x.data.sum / (x.size : ℚ)

/-- `np.sum((x - x.mean()) * (x_ref - x_ref.mean()))`: the sum of products of
the two mean-centered arrays (elementwise over equal shapes). -/
def covSum (x x_ref : NDArray) : ℚ :=
  (List.zipWith (fun a b => (a - meanQ x) * (b - meanQ x_ref)) x.data x_ref.data).sum

/-- `x.var(ddof=1)` as numpy computes it: the sum of `|v - mean|²` over the
flattened data divided by `size - ddof` (division by zero yields the ℚ junk
value 0; numpy would produce NaN there, a case no claim exercises). -/
def npVar1 (x : NDArray) : ℚ :=
  (x.data.map (fun v => |v - meanQ x| ^ 2)).sum / ((x.size : ℚ) - 1)

/-- `x.std(ddof=1)`: square root of the unbiased sample variance. -/
noncomputable def npStd1 (x : NDArray) : ℝ := Real.sqrt (npVar1 x)

/-- `normalized_cross_correlation(x, x_ref)` from the source: raises when the
shapes differ, otherwise divides the mean-centered product sum by
`x.size * x.std(ddof=1) * x_ref.std(ddof=1)`. -/
noncomputable def normalized_cross_correlation (x x_ref : NDArray) :
    Except PyError ℝ :=
  if x.shape ≠ x_ref.shape then .error .shapeMismatch
  else .ok ((covSum x x_ref : ℝ) / ((x.size : ℝ) * npStd1 x * npStd1 x_ref))

/-- Spec-side mean: the sum of the elements divided by the element count. -/
def specMean (a : NDArray) : ℚ := a.data.sum / (a.data.length : ℚ)

/-- Spec-side sample standard deviation with the unbiased N−1 denominator:
`sqrt (Σ (v − mean)² / (N − 1))` over the element count `N`. -/
noncomputable def sampleStd (a : NDArray) : ℝ :=
  Real.sqrt (((a.data.map (fun v => (v - specMean a) ^ 2)).sum : ℚ) /
    ((a.data.length : ℚ) - 1))

/-- Spec-side reading of the NCC sentence (for claim C1): the sum of the
products of the mean-centered arrays divided by the product of the element
count and the two arrays' sample standard deviations computed with the
unbiased N−1 denominator. -/
noncomputable def ncc_spec (x x_ref : NDArray) : ℝ :=
  ((List.zipWith (fun a b => (a - specMean x) * (b - specMean x_ref)) x.data x_ref.data).sum : ℝ) /
    ((x.data.length : ℝ) * sampleStd x * sampleStd x_ref)

/-- The elementwise negation `-x` of an ndarray. -/
def negArr (x : NDArray) : NDArray :=
  ⟨x.shape, x.data.map (fun v => -v), by simp [x.wf]⟩

/-- Python truthiness of the `datarange` argument: `not datarange` is true for
`None` and for `0`. -/
def falsyDatarange : Option ℚ → Bool
  | none => true
  | some v => v = 0

/-- The first two lines shared by `psnr` and `ssim`:
`if not datarange: datarange = int(np.amax(x_ref) - min(np.amin(x), np.amin(x_ref)))`.
`np.amax`/`np.amin` raise on empty data. -/
def effDatarangeE (x x_ref : NDArray) (datarange : Option ℚ) : Except PyError ℚ :=
  if falsyDatarange datarange then
    if x.data = [] ∨ x_ref.data = [] then .error .emptyReduce
    else .ok ((qtrunc (listMax x_ref.data - min (listMin x.data) (listMin x_ref.data)) : ℤ) : ℚ)
  else .ok (datarange.getD 0)

/-- Value of `sum(abs(x - x_ref))` when that Python-builtin sum reduces to a
single number (the builtin `sum` only reduces the first axis). -/
def absDiffSum (x x_ref : NDArray) : ℚ :=
  (List.zipWith (fun a b => |a - b|) x.data x_ref.data).sum

/-- `psnr(x, x_ref, datarange=None)`. The skimage `peak_signal_noise_ratio`
call is the opaque parameter `P`. The guard `if sum(abs(x - x_ref)) < 1e-13`
uses the Python builtin `sum`, which reduces only the first axis: when the
remaining axes hold more than one element, truth-testing the resulting boolean
array raises `ValueError`; that happens exactly when `shape.tail.prod ≠ 1`. -/
noncomputable def psnr (P : NDArray → NDArray → ℚ → ℝ)
    (x x_ref : NDArray) (datarange : Option ℚ) : Except PyError (Option ℝ) :=
  match effDatarangeE x x_ref datarange with
  | .error e => .error e
  | .ok dr =>
    if x.shape.tail.prod ≠ 1 then .error .ambiguousTruth
    else if absDiffSum x x_ref < (1 : ℚ) / 10 ^ 13 then .ok none
    else .ok (some (P x x_ref dr))

/-- `pick_ssim(ssim, mask)` from the source: with no mask return the global
mean SSIM `ssim[0]`; with a mask return `ssim[1][mask > 0].mean()` (the mean
over an empty selection is numpy NaN, modelled as `none`). -/
noncomputable def pick_ssim (s : ℝ × List ℝ) (mask : Option NDArray) : Option ℝ :=
  match mask with
  | none => some s.1
  | some M =>
    let sel := ((s.2.zip M.data).filter (fun p => 0 < p.2)).map Prod.fst
    if sel.length = 0 then none else some (sel.sum / (sel.length : ℝ))

/-- `ssim(x, x_ref, mask=None, datarange=None)`. The skimage
`structural_similarity(x_ref, x, data_range=dr, full=True)` call is the opaque
parameter `S`, returning the global mean SSIM and the flattened per-pixel SSIM
map; its documented `check_shape_equality` is modelled at the call site. -/
noncomputable def ssim (S : NDArray → NDArray → ℚ → ℝ × List ℝ)
    (x x_ref : NDArray) (mask : Option NDArray) (datarange : Option ℚ) :
    Except PyError (Option ℝ) :=
  match effDatarangeE x x_ref datarange with
  | .error e => .error e
  | .ok dr =>
    if x_ref.shape ≠ x.shape then .error .shapeMismatch
    else .ok (pick_ssim (S x_ref x dr) mask)

/-- Bin index assigned by `np.histogram`/`np.histogramdd` to the value `v`
for `bins` equal-width bins spanning `[a, b]` (exact arithmetic): a degenerate
range `a = b` is widened by ±1/2 as numpy does, interior bins are half-open
and the last bin is closed, so the index is `⌊(v − a)·bins/(b − a)⌋` clamped
to `bins − 1`. -/
def binIndex (a b : ℚ) (bins : ℕ) (v : ℚ) : ℕ :=
  let lo := if a = b then a - 1/2 else a
  let hi := if a = b then b + 1/2 else b
  min (Int.toNat ⌊(v - lo) * (bins : ℚ) / (hi - lo)⌋) (bins - 1)

/-- Bin index for a value of the data list `x`, with the bin range spanning
`x`'s own min and max (as `np.histogram(x, bins=bins)` does). -/
def idx (x : List ℚ) (bins : ℕ) (v : ℚ) : ℕ :=
  binIndex (listMin x) (listMax x) bins v

/-- Count of the 1-D histogram bin `i` of `np.histogram(x, bins)`. -/
def hist (x : List ℚ) (bins : ℕ) (i : ℕ) : ℕ :=
  x.countP (fun v => idx x bins v = i)

/-- `np.sum(hist)`: total count over the `bins` bins. -/
def histTotal (x : List ℚ) (bins : ℕ) : ℕ :=
  ((List.range bins).map (hist x bins)).sum

/-- `prob = hist / float(np.sum(hist))`: the list of bin probabilities. -/
def probs (x : List ℚ) (bins : ℕ) : List ℚ :=
  (List.range bins).map (fun i => (hist x bins i : ℚ) / (histTotal x bins : ℚ))

/-- `-sum([p * np.log(p) for p in prob.flatten() if p != 0])`: entropy of a
probability list, skipping zero-probability entries. -/
noncomputable def entropyOf (ps : List ℚ) : ℝ :=
  -(((ps.filter (fun p => p ≠ 0)).map (fun p : ℚ => (p : ℝ) * Real.log (p : ℝ))).sum)

/-- `shannon_entropy(x, bins)` from the source: histogram over the flattened
data, normalize to probabilities, entropy over the nonzero ones. -/
noncomputable def shannon_entropy (x : NDArray) (bins : ℕ) : ℝ :=
  entropyOf (probs x.data bins)

/-- All cells `(i, j)` of the `bins × bins` joint histogram, row-major. -/
def cellList (bins : ℕ) : List (ℕ × ℕ) :=
  (List.range bins).flatMap (fun i => (List.range bins).map (fun j => (i, j)))

/-- Count of cell `(i, j)` of `np.histogram2d(x, y, bins)`: pairs whose first
component falls in `x`-bin `i` and second in `y`-bin `j` (each axis spans its
own data's min/max). -/
def hist2 (x y : List ℚ) (bins : ℕ) (i j : ℕ) : ℕ :=
  (x.zip y).countP (fun p => idx x bins p.1 = i ∧ idx y bins p.2 = j)

/-- `np.sum(hist)` for the joint histogram. -/
def hist2Total (x y : List ℚ) (bins : ℕ) : ℕ :=
  ((cellList bins).map (fun c => hist2 x y bins c.1 c.2)).sum

/-- Flattened joint probability list of `np.histogram2d(x, y, bins)`. -/
def jointProbs (x y : List ℚ) (bins : ℕ) : List ℚ :=
  (cellList bins).map (fun c => (hist2 x y bins c.1 c.2 : ℚ) / (hist2Total x y bins : ℚ))

/-- `joint_entropy(x, x_ref, bins)` from the source: `np.histogram2d` on the
two flattened arrays (which raises only when the flattened lengths differ),
normalize, entropy over the nonzero cells. -/
noncomputable def joint_entropy (x x_ref : NDArray) (bins : ℕ) :
    Except PyError ℝ :=
  if x.data.length ≠ x_ref.data.length then .error .lengthMismatch
  else .ok (entropyOf (jointProbs x.data x_ref.data bins))

/-- `mutual_information(x, x_ref, bins) = H(x) + H(x_ref) − H(x, x_ref)`. -/
noncomputable def mutual_information (x x_ref : NDArray) (bins : ℕ) :
    Except PyError ℝ :=
  match joint_entropy x x_ref bins with
  | .error e => .error e
  | .ok je => .ok (shannon_entropy x bins + shannon_entropy x_ref bins - je)

/-- `normalized_mutual_information(x, x_ref, bins) = (H(x) + H(x_ref)) / H(x, x_ref)`.
The float division by an exactly-zero joint entropy yields a non-finite value
(NaN, since the numerator is then also zero), modelled as `none`. -/
noncomputable def normalized_mutual_information (x x_ref : NDArray) (bins : ℕ) :
    Except PyError (Option ℝ) :=
  match joint_entropy x x_ref bins with
  | .error e => .error e
  | .ok je =>
    if je = 0 then .ok none
    else .ok (some ((shannon_entropy x bins + shannon_entropy x_ref bins) / je))

/-! ### Basic lemmas about the embedding -/

theorem NDArray.size_eq_length (x : NDArray) : x.size = x.data.length := x.wf.symm

theorem specMean_eq (a : NDArray) : specMean a = meanQ a := by
  rw [specMean, meanQ, NDArray.size_eq_length]

theorem sampleStd_eq (a : NDArray) : sampleStd a = npStd1 a := by
  rw [sampleStd, npStd1, npVar1, NDArray.size_eq_length]
  congr 1
  simp [specMean_eq, sq_abs]

/-! ### Sample arrays used as concrete inputs -/

/-- The 1-D array `[0, 1]`. -/
def arr01 : NDArray := ⟨[2], [0, 1], rfl⟩

/-- The 1-D array `[1, 3]`. -/
def arr13 : NDArray := ⟨[2], [1, 3], rfl⟩

/-- The 2×2 array `[[1, 2], [3, 4]]`. -/
def arr2x2 : NDArray := ⟨[2, 2], [1, 2, 3, 4], rfl⟩

/-- The 3×2 array with the same six values as `arr2x3`. -/
def arr3x2 : NDArray := ⟨[3, 2], [1, 2, 3, 4, 5, 6], rfl⟩

/-- The 2×3 array `[[1, 2, 3], [4, 5, 6]]`. -/
def arr2x3 : NDArray := ⟨[2, 3], [1, 2, 3, 4, 5, 6], rfl⟩

/-- The constant 1-D array `[1, 1]`. -/
def arrkonst1 : NDArray := ⟨[2], [1, 1], rfl⟩

/-- The constant 1-D array `[2, 2]`. -/
def arrkonst2 : NDArray := ⟨[2], [2, 2], rfl⟩

/-! ### Claim C1 -/

/-- Claim C1: for every pair of equal-shaped arrays `x` and `x_ref`,
`normalized_cross_correlation(x, x_ref)` returns the sum of the products of
the mean-centered arrays divided by the product of the element count and the
two arrays' sample standard deviations computed with the unbiased N−1
denominator. -/
theorem ncc_matches_spec_formula (x x_ref : NDArray) (h : x.shape = x_ref.shape) :
    normalized_cross_correlation x x_ref = .ok (ncc_spec x x_ref) := by
  rw [normalized_cross_correlation, if_neg (by simp [h])]
  rw [ncc_spec, covSum]
  simp only [specMean_eq, sampleStd_eq, NDArray.size_eq_length]

/-- Witness for C1 at the concrete pair `[0,1]`, `[1,3]`. -/
theorem ncc_matches_spec_formula_witness :
    arr01.shape = arr13.shape ∧
      normalized_cross_correlation arr01 arr13 = .ok (ncc_spec arr01 arr13) :=
  ⟨rfl, ncc_matches_spec_formula arr01 arr13 rfl⟩

/-! ### Claim C10 -/

/-- Claim C10: calling `psnr` or `ssim` with an explicitly supplied datarange
equal to 0 behaves exactly as if datarange were unspecified, because the
default check tests falsiness rather than absence. -/
theorem datarange_zero_is_default (P : NDArray → NDArray → ℚ → ℝ)
    (S : NDArray → NDArray → ℚ → ℝ × List ℝ) (x x_ref : NDArray)
    (mask : Option NDArray) :
    psnr P x x_ref (some 0) = psnr P x x_ref none ∧
      ssim S x x_ref mask (some 0) = ssim S x x_ref mask none := by
  constructor <;> rfl

/-! ### Claim C2 -/

/-- Helper: when both data lists are nonempty, the datarange inference never
raises, whatever the `datarange` argument. -/
theorem effDatarangeE_ok (x x_ref : NDArray) (d : Option ℚ)
    (hx : x.data ≠ []) (hy : x_ref.data ≠ []) :
    ∃ dr, effDatarangeE x x_ref d = .ok dr := by
  rw [effDatarangeE]
  split
  · rw [if_neg (by simp [hx, hy])]
    exact ⟨_, rfl⟩
  · exact ⟨_, rfl⟩

/-- Counterexample to claim C2 as stated: `joint_entropy` on the
shape-mismatched pair 2×3 vs 3×2 (equal element counts) silently computes a
value instead of raising a shape-mismatch error. -/
theorem joint_entropy_shape_mismatch_cex :
    arr2x3.shape ≠ arr3x2.shape ∧ (joint_entropy arr2x3 arr3x2 4).isOk = true :=
  ⟨by decide, rfl⟩

/-- Claim C2 (amended): `normalized_cross_correlation` raises a shape-mismatch
error whenever the shapes differ, and `ssim` does so through the SSIM
routine's shape check (given nonempty inputs so the datarange inference does
not raise first); but `joint_entropy` checks only the flattened lengths: it
raises only when the element counts differ and silently computes a value for
shape-mismatched arrays of equal element count. -/
theorem shape_mismatch_behavior :
    (∀ x x_ref : NDArray, x.shape ≠ x_ref.shape →
      normalized_cross_correlation x x_ref = .error .shapeMismatch) ∧
    (∀ (S : NDArray → NDArray → ℚ → ℝ × List ℝ) (x x_ref : NDArray)
      (mask : Option NDArray) (d : Option ℚ), x.shape ≠ x_ref.shape →
      x.data ≠ [] → x_ref.data ≠ [] →
      ssim S x x_ref mask d = .error .shapeMismatch) ∧
    (∀ (x x_ref : NDArray) (bins : ℕ), x.data.length ≠ x_ref.data.length →
      joint_entropy x x_ref bins = .error .lengthMismatch) ∧
    (∀ (x x_ref : NDArray) (bins : ℕ), x.data.length = x_ref.data.length →
      (joint_entropy x x_ref bins).isOk = true) := by
  refine ⟨?_, ?_, ?_, ?_⟩
  · intro x y h
    rw [normalized_cross_correlation, if_pos h]
  · intro S x y mask d h hx hy
    obtain ⟨dr, hdr⟩ := effDatarangeE_ok x y d hx hy
    rw [ssim, hdr]
    exact if_pos (Ne.symm h)
  · intro x y bins h
    rw [joint_entropy, if_pos h]
  · intro x y bins h
    rw [joint_entropy, if_neg (by simp [h])]
    rfl

/-- Witness for the amended C2, instantiating all four behaviors at
concrete arrays. -/
theorem shape_mismatch_behavior_witness :
    normalized_cross_correlation arr01 arr2x2 = .error .shapeMismatch ∧
    ssim (fun _ _ _ => (0, [])) arr01 arr2x2 none (some 1) = .error .shapeMismatch ∧
    joint_entropy arr01 arr2x3 4 = .error .lengthMismatch ∧
    (joint_entropy arr2x3 arr3x2 4).isOk = true :=
  ⟨shape_mismatch_behavior.1 _ _ (by decide),
   shape_mismatch_behavior.2.1 _ _ _ _ _ (by decide) (by decide) (by decide),
   shape_mismatch_behavior.2.2.1 _ _ _ (by decide),
   shape_mismatch_behavior.2.2.2 _ _ _ (by decide)⟩

/-! ### Claim C3: helper lemmas about centered sums of squares -/

/-- `Σ (v − mean x)²` over the flattened data. -/
def ssd (x : NDArray) : ℚ := (x.data.map (fun v => (v - meanQ x) ^ 2)).sum

theorem covSum_self (x : NDArray) : covSum x x = ssd x := by
  rw [covSum, List.zipWith_same, ssd]
  simp [pow_two]

theorem npVar1_eq_ssd (x : NDArray) :
    npVar1 x = ssd x / ((x.data.length : ℚ) - 1) := by
  rw [npVar1, NDArray.size_eq_length, ssd]
  congr 2
  simp [sq_abs]

theorem ssd_nonneg (x : NDArray) : 0 ≤ ssd x := by
  refine List.sum_nonneg ?_
  intro a ha
  obtain ⟨v, _, rfl⟩ := List.mem_map.mp ha
  exact sq_nonneg _

theorem list_nonneg_sum_zero {l : List ℚ} (h0 : ∀ a ∈ l, 0 ≤ a)
    (hs : l.sum = 0) : ∀ a ∈ l, a = 0 := by
  induction l with
  | nil => simp
  | cons b t ih =>
    simp only [List.sum_cons] at hs
    have hb : 0 ≤ b := h0 b (by simp)
    have ht : 0 ≤ t.sum := List.sum_nonneg (fun a ha => h0 a (by simp [ha]))
    have hb0 : b = 0 := le_antisymm (by linarith) hb
    have hts : t.sum = 0 := by linarith
    intro a ha
    rcases List.mem_cons.mp ha with rfl | ha'
    · exact hb0
    · exact ih (fun c hc => h0 c (by simp [hc])) hts a ha'

theorem ssd_pos {x : NDArray} (h : ∃ a ∈ x.data, ∃ b ∈ x.data, a ≠ b) :
    0 < ssd x := by
  rcases h with ⟨a, ha, b, hb, hab⟩
  rcases (ssd_nonneg x).lt_or_eq with hlt | heq
  · exact hlt
  · exfalso
    have hz : ∀ c ∈ x.data.map (fun v => (v - meanQ x) ^ 2), c = 0 := by
      refine list_nonneg_sum_zero ?_ heq.symm
      intro c hc
      obtain ⟨v, _, rfl⟩ := List.mem_map.mp hc
      exact sq_nonneg _
    have hamem := hz _ (List.mem_map_of_mem _ ha)
    have hbmem := hz _ (List.mem_map_of_mem _ hb)
    have ha' : a = meanQ x := by
      have := sq_eq_zero_iff.mp hamem
      linarith [sub_eq_zero.mp this]
    have hb' : b = meanQ x := by
      have := sq_eq_zero_iff.mp hbmem
      linarith [sub_eq_zero.mp this]
    exact hab (ha'.trans hb'.symm)

theorem two_mem_ne_length {l : List ℚ} {a b : ℚ} (ha : a ∈ l) (hb : b ∈ l)
    (hab : a ≠ b) : 2 ≤ l.length := by
  match l with
  | [] => simp at ha
  | [c] =>
    rw [List.mem_singleton] at ha hb
    exact absurd (ha.trans hb.symm) hab
  | c :: d :: t => simp only [List.length_cons]; omega

theorem list_sum_map_neg (l : List ℚ) (f : ℚ → ℚ) :
    (l.map (fun v => -(f v))).sum = -((l.map f).sum) := by
  induction l with
  | nil => simp
  | cons a t ih => simp [ih]; ring

theorem meanQ_negArr (x : NDArray) : meanQ (negArr x) = -meanQ x := by
  rw [meanQ, meanQ]
  have hsum : ((negArr x).data).sum = -(x.data.sum) := by
    have := list_sum_map_neg x.data (fun v => v)
    simpa [negArr] using this
  have hsize : (negArr x).size = x.size := rfl
  rw [hsum, hsize, neg_div]

theorem ssd_negArr (x : NDArray) : ssd (negArr x) = ssd x := by
  rw [ssd, ssd, meanQ_negArr]
  have hdata : (negArr x).data = x.data.map (fun v => -v) := rfl
  rw [hdata, List.map_map]
  rw [show ((fun v => (v - -meanQ x) ^ 2) ∘ fun v => -v) =
    (fun v : ℚ => (v - meanQ x) ^ 2) from funext (fun v => by
      simp only [Function.comp_apply]
      ring)]

theorem covSum_negArr (x : NDArray) : covSum x (negArr x) = -ssd x := by
  rw [covSum, meanQ_negArr]
  have hdata : (negArr x).data = x.data.map (fun v => -v) := rfl
  rw [hdata, List.zipWith_map_right, List.zipWith_same, ssd]
  rw [show (fun a => (a - meanQ x) * (-a - -meanQ x)) =
    (fun a => -((a - meanQ x) ^ 2)) from funext (fun a => by ring)]
  exact list_sum_map_neg _ _

theorem npStd1_negArr (x : NDArray) : npStd1 (negArr x) = npStd1 x := by
  rw [npStd1, npStd1, npVar1_eq_ssd, npVar1_eq_ssd, ssd_negArr]
  have : (negArr x).data.length = x.data.length := by simp [negArr]
  rw [this]

/-- Counterexample to claim C3 as stated: on the 1-D array `[0, 1]` the code
returns `normalized_cross_correlation(x, x) = 1/2`, not 1, because the
denominator uses the unbiased (N−1) standard deviations scaled by N. -/
theorem ncc_self_not_one_cex : normalized_cross_correlation arr01 arr01 ≠ .ok 1 := by
  have h1 : covSum arr01 arr01 = 1 / 2 := by with_unfolding_all decide
  have h2 : npVar1 arr01 = 1 / 2 := by with_unfolding_all decide
  have h3 : (arr01.size : ℝ) = 2 := by norm_num [NDArray.size, arr01]
  rw [normalized_cross_correlation, if_neg (by simp), npStd1, h1, h2, h3]
  have h4 : Real.sqrt ((1 / 2 : ℚ) : ℝ) * Real.sqrt ((1 / 2 : ℚ) : ℝ) = 1 / 2 := by
    rw [show (((1 : ℚ) / 2 : ℚ) : ℝ) = 1 / 2 by norm_num]
    exact Real.mul_self_sqrt (by norm_num)
  rw [mul_assoc, h4]
  intro hc
  rw [Except.ok.injEq] at hc
  norm_num at hc

/-- Claim C3 (amended): for every non-constant array `x` with N elements,
`normalized_cross_correlation(x, x)` equals `(N − 1)/N` — not 1 — and
`normalized_cross_correlation(x, -x)` equals `-((N − 1)/N)` — not −1 —
because the denominator is N times the product of the unbiased (N−1) sample
standard deviations. -/
theorem ncc_self_and_neg (x : NDArray)
    (h : ∃ a ∈ x.data, ∃ b ∈ x.data, a ≠ b) :
    normalized_cross_correlation x x =
      .ok (((x.data.length : ℝ) - 1) / (x.data.length : ℝ)) ∧
    normalized_cross_correlation x (negArr x) =
      .ok (-(((x.data.length : ℝ) - 1) / (x.data.length : ℝ))) := by
  obtain ⟨a, ha, b, hb, hab⟩ := h
  have hn2 : 2 ≤ x.data.length := two_mem_ne_length ha hb hab
  have hnR : (2 : ℝ) ≤ (x.data.length : ℝ) := by exact_mod_cast hn2
  have hssd : 0 < ssd x := ssd_pos ⟨a, ha, b, hb, hab⟩
  have hssdR : (0 : ℝ) < ((ssd x : ℚ) : ℝ) := by exact_mod_cast hssd
  have hvar : ((npVar1 x : ℚ) : ℝ) = ((ssd x : ℚ) : ℝ) / ((x.data.length : ℝ) - 1) := by
    rw [npVar1_eq_ssd]
    push_cast
    ring
  have hvar0 : (0 : ℝ) ≤ ((npVar1 x : ℚ) : ℝ) := by
    rw [hvar]
    exact div_nonneg hssdR.le (by linarith)
  have hstd2 : npStd1 x * npStd1 x = ((npVar1 x : ℚ) : ℝ) := by
    rw [npStd1]
    exact Real.mul_self_sqrt hvar0
  have hne0 : ((ssd x : ℚ) : ℝ) ≠ 0 := ne_of_gt hssdR
  have hn0 : ((x.data.length : ℝ)) ≠ 0 := by linarith
  have hn1 : ((x.data.length : ℝ)) - 1 ≠ 0 := by linarith
  constructor
  · rw [normalized_cross_correlation, if_neg (by simp), covSum_self,
      NDArray.size_eq_length, mul_assoc, hstd2, hvar]
    rw [Except.ok.injEq]
    field_simp
    ring
  · rw [normalized_cross_correlation, if_neg (by simp [negArr]), covSum_negArr,
      npStd1_negArr, NDArray.size_eq_length, mul_assoc, hstd2, hvar]
    rw [Except.ok.injEq]
    push_cast
    field_simp
    ring

/-- Witness for the amended C3 at the concrete non-constant array `[0, 1]`. -/
theorem ncc_self_and_neg_witness :
    (∃ a ∈ arr01.data, ∃ b ∈ arr01.data, a ≠ b) ∧
    normalized_cross_correlation arr01 arr01 =
      .ok (((arr01.data.length : ℝ) - 1) / (arr01.data.length : ℝ)) ∧
    normalized_cross_correlation arr01 (negArr arr01) =
      .ok (-(((arr01.data.length : ℝ) - 1) / (arr01.data.length : ℝ))) := by
  have hnc : ∃ a ∈ arr01.data, ∃ b ∈ arr01.data, a ≠ b :=
    ⟨0, by with_unfolding_all decide, 1, by with_unfolding_all decide,
      by norm_num⟩
  exact ⟨hnc, (ncc_self_and_neg arr01 hnc).1, (ncc_self_and_neg arr01 hnc).2⟩

/-! ### Claim C4 -/

/-- Claim C4 evaluated on the code: the identical-slice guard works only when
everything past the first axis has a single element. On the identical 2×2
pair the Python-builtin `sum` leaves a 2-element boolean array whose truth
test raises, so `psnr` raises instead of returning NaN; on the identical 1-D
pair `[0, 1]` the guard does return NaN as documented. -/
theorem psnr_identical_guard_eval :
    psnr (fun _ _ _ => 0) arr2x2 arr2x2 none = .error .ambiguousTruth ∧
    psnr (fun _ _ _ => 0) arr01 arr01 none = .ok none := by
  constructor
  · with_unfolding_all rfl
  · with_unfolding_all rfl

/-! ### Claim C5 -/

/-- Claim C5: for equal-shaped arrays, `ssim` with no mask returns the single
global mean SSIM scalar, and `ssim` with a mask returns the mean of the
per-pixel SSIM map restricted to positions where the mask is nonzero,
ignoring the global scalar entirely. -/
theorem ssim_selection (S : NDArray → NDArray → ℚ → ℝ × List ℝ)
    (x x_ref M : NDArray) (d : Option ℚ) (dr : ℚ)
    (hdr : effDatarangeE x x_ref d = .ok dr) (hs : x_ref.shape = x.shape) :
    ssim S x x_ref none d = .ok (some (S x_ref x dr).1) ∧
    (((((S x_ref x dr).2.zip M.data).filter (fun p => 0 < p.2)).map Prod.fst) ≠ [] →
      ssim S x x_ref (some M) d =
        .ok (some (((((S x_ref x dr).2.zip M.data).filter (fun p => 0 < p.2)).map Prod.fst).sum /
          ((((((S x_ref x dr).2.zip M.data).filter (fun p => 0 < p.2)).map Prod.fst).length : ℕ) : ℝ)))) := by
  have hcond : ¬(x_ref.shape ≠ x.shape) := by simp [hs]
  constructor
  · simp only [ssim, hdr, if_neg hcond]
    rfl
  · intro hne
    simp only [ssim, hdr, if_neg hcond, pick_ssim]
    rw [if_neg (fun hlen => hne (List.length_eq_zero.mp hlen))]

/-- A concrete stand-in for the opaque SSIM routine: global mean 2 and
per-pixel map `[1, 0]`. -/
noncomputable def sampleSsimRoutine : NDArray → NDArray → ℚ → ℝ × List ℝ :=
  fun _ _ _ => ((2 : ℝ), [(1 : ℝ), 0])

/-- The 1-D mask `[0, 5]` (second position selected). -/
def arrMask : NDArray := ⟨[2], [0, 5], rfl⟩

/-- Witness for C5 at the concrete routine `sampleSsimRoutine`, inputs `[0, 1]`
and mask `[0, 5]`. -/
theorem ssim_selection_witness :
    effDatarangeE arr01 arr01 none = .ok 1 ∧
    ssim sampleSsimRoutine arr01 arr01 none none =
      .ok (some (sampleSsimRoutine arr01 arr01 1).1) ∧
    ((((sampleSsimRoutine arr01 arr01 1).2.zip arrMask.data).filter
        (fun p => 0 < p.2)).map Prod.fst ≠ [] →
      ssim sampleSsimRoutine arr01 arr01 (some arrMask) none =
        .ok (some (((((sampleSsimRoutine arr01 arr01 1).2.zip arrMask.data).filter
            (fun p => 0 < p.2)).map Prod.fst).sum /
          ((((((sampleSsimRoutine arr01 arr01 1).2.zip arrMask.data).filter
            (fun p => 0 < p.2)).map Prod.fst).length : ℕ) : ℝ)))) := by
  have hdr : effDatarangeE arr01 arr01 none = .ok 1 := by with_unfolding_all rfl
  exact ⟨hdr,
    (ssim_selection sampleSsimRoutine arr01 arr01 arrMask none 1 hdr rfl).1,
    (ssim_selection sampleSsimRoutine arr01 arr01 arrMask none 1 hdr rfl).2⟩

/-! ### Entropy lemmas (claims C6, C7, C8) -/

theorem entropyOf_cons (p : ℚ) (t : List ℚ) :
    entropyOf (p :: t) = Real.negMulLog ((p : ℚ) : ℝ) + entropyOf t := by
  by_cases hp : p = 0
  · subst hp
    rw [entropyOf, entropyOf, List.filter_cons, if_neg (by simp)]
    simp
  · rw [entropyOf, entropyOf, List.filter_cons, if_pos (by simp [hp]),
      List.map_cons, List.sum_cons, Real.negMulLog]
    ring

theorem entropyOf_eq (ps : List ℚ) :
    entropyOf ps = (ps.map (fun p => Real.negMulLog ((p : ℚ) : ℝ))).sum := by
  induction ps with
  | nil =>
    rw [entropyOf]
    simp
  | cons p t ih => rw [entropyOf_cons, List.map_cons, List.sum_cons, ih]

theorem sum_map_range {M : Type*} [AddCommMonoid M] (n : ℕ) (f : ℕ → M) :
    ((List.range n).map f).sum = ∑ i ∈ Finset.range n, f i := by
  induction n with
  | zero => simp
  | succ k ih =>
    rw [List.range_succ, List.map_append, List.sum_append, Finset.sum_range_succ, ih]
    simp

theorem histTotal_eq (x : List ℚ) (bins : ℕ) :
    histTotal x bins = ∑ i ∈ Finset.range bins, hist x bins i := by
  rw [histTotal, sum_map_range]

theorem hist_le_total {x : List ℚ} {bins i : ℕ} (hi : i < bins) :
    hist x bins i ≤ histTotal x bins := by
  rw [histTotal_eq]
  exact Finset.single_le_sum (fun j _ => Nat.zero_le _) (Finset.mem_range.mpr hi)

theorem idx_lt_bins {x : List ℚ} {bins : ℕ} (hb : 0 < bins) (v : ℚ) :
    idx x bins v < bins := by
  rw [idx, binIndex]
  have : min (Int.toNat ⌊(v - (if listMin x = listMax x then listMin x - 1/2 else listMin x)) *
      (bins : ℚ) / ((if listMin x = listMax x then listMax x + 1/2 else listMax x) -
      (if listMin x = listMax x then listMin x - 1/2 else listMin x))⌋) (bins - 1) ≤ bins - 1 :=
    min_le_right _ _
  omega

theorem histTotal_pos {x : List ℚ} {bins : ℕ} (hx : x ≠ []) (hb : 0 < bins) :
    0 < histTotal x bins := by
  obtain ⟨v, t, rfl⟩ := List.exists_cons_of_ne_nil hx
  have hidx : idx (v :: t) bins v < bins := idx_lt_bins hb v
  have hcount : 0 < hist (v :: t) bins (idx (v :: t) bins v) := by
    rw [hist]
    refine List.countP_pos_iff.mpr ⟨v, by simp, by simp⟩
  calc 0 < hist (v :: t) bins (idx (v :: t) bins v) := hcount
    _ ≤ histTotal (v :: t) bins := hist_le_total hidx

theorem probs_sum_one {x : List ℚ} {bins : ℕ} (hx : x ≠ []) (hb : 0 < bins) :
    ∑ i ∈ Finset.range bins, ((hist x bins i : ℚ) / (histTotal x bins : ℚ)) = 1 := by
  have htot : (0 : ℚ) < (histTotal x bins : ℚ) := by
    exact_mod_cast histTotal_pos hx hb
  rw [← Finset.sum_div, div_eq_one_iff_eq (ne_of_gt htot), histTotal_eq]
  push_cast
  rfl

theorem shannon_entropy_eq_sum (x : NDArray) (bins : ℕ) :
    shannon_entropy x bins = ∑ i ∈ Finset.range bins,
      Real.negMulLog (((hist x.data bins i : ℚ) / (histTotal x.data bins : ℚ) : ℚ) : ℝ) := by
  rw [shannon_entropy, entropyOf_eq, probs, List.map_map, sum_map_range]
  rfl

/-! ### Claim C6 -/

/-- Claim C6: for every nonempty array and positive bin count, the Shannon
entropy lies between 0 and `ln(bins)`, and it equals the sum of `−p·ln p`
over all bins with `−0·ln 0 = 0` (zero-probability bins contribute 0). -/
theorem shannon_entropy_bounds (x : NDArray) (bins : ℕ)
    (hx : x.data ≠ []) (hb : 0 < bins) :
    0 ≤ shannon_entropy x bins ∧ shannon_entropy x bins ≤ Real.log bins ∧
      shannon_entropy x bins =
        ((probs x.data bins).map (fun p : ℚ => Real.negMulLog (p : ℝ))).sum := by
  have htotQ : (0 : ℚ) < (histTotal x.data bins : ℚ) := by
    exact_mod_cast histTotal_pos hx hb
  have hp0 : ∀ i : ℕ,
      (0 : ℝ) ≤ (((hist x.data bins i : ℚ) / (histTotal x.data bins : ℚ) : ℚ) : ℝ) := by
    intro i
    have : (0 : ℚ) ≤ (hist x.data bins i : ℚ) / (histTotal x.data bins : ℚ) :=
      div_nonneg (by positivity) htotQ.le
    exact_mod_cast this
  have hp1 : ∀ i ∈ Finset.range bins,
      (((hist x.data bins i : ℚ) / (histTotal x.data bins : ℚ) : ℚ) : ℝ) ≤ 1 := by
    intro i hi
    have hle : (hist x.data bins i : ℚ) ≤ (histTotal x.data bins : ℚ) := by
      exact_mod_cast hist_le_total (Finset.mem_range.mp hi)
    have : (hist x.data bins i : ℚ) / (histTotal x.data bins : ℚ) ≤ 1 :=
      (div_le_one htotQ).mpr hle
    exact_mod_cast this
  have hsum : ∑ i ∈ Finset.range bins,
      (((hist x.data bins i : ℚ) / (histTotal x.data bins : ℚ) : ℚ) : ℝ) = 1 := by
    have := probs_sum_one hx hb
    exact_mod_cast congrArg (fun q : ℚ => (q : ℝ)) this
  have hbR : (0 : ℝ) < (bins : ℝ) := by exact_mod_cast hb
  refine ⟨?_, ?_, ?_⟩
  · rw [shannon_entropy_eq_sum]
    exact Finset.sum_nonneg (fun i hi => Real.negMulLog_nonneg (hp0 i) (hp1 i hi))
  · rw [shannon_entropy_eq_sum]
    have h₀ : ∀ i ∈ Finset.range bins, (0 : ℝ) ≤ ((bins : ℝ))⁻¹ :=
      fun i _ => inv_nonneg.mpr hbR.le
    have h₁ : ∑ _i ∈ Finset.range bins, ((bins : ℝ))⁻¹ = 1 := by
      rw [Finset.sum_const, Finset.card_range, nsmul_eq_mul]
      field_simp
    have hmem : ∀ i ∈ Finset.range bins,
        (((hist x.data bins i : ℚ) / (histTotal x.data bins : ℚ) : ℚ) : ℝ) ∈
          Set.Ici (0 : ℝ) :=
      fun i _ => hp0 i
    have hj := Real.concaveOn_negMulLog.le_map_sum h₀ h₁ hmem
    simp only [smul_eq_mul] at hj
    rw [← Finset.mul_sum, ← Finset.mul_sum, hsum, mul_one] at hj
    have hlog : Real.negMulLog ((bins : ℝ))⁻¹ = ((bins : ℝ))⁻¹ * Real.log bins := by
      rw [Real.negMulLog, Real.log_inv]
      ring
    rw [hlog] at hj
    exact (mul_le_mul_left (inv_pos.mpr hbR)).mp hj
  · rw [shannon_entropy]
    exact entropyOf_eq _

/-- Witness for C6 at the array `[0, 1]` with 2 bins. -/
theorem shannon_entropy_bounds_witness :
    arr01.data ≠ [] ∧ 0 < 2 ∧
      (0 ≤ shannon_entropy arr01 2 ∧ shannon_entropy arr01 2 ≤ Real.log 2 ∧
        shannon_entropy arr01 2 =
          ((probs arr01.data 2).map (fun p : ℚ => Real.negMulLog (p : ℝ))).sum) :=
  ⟨by with_unfolding_all decide, by decide,
    by simpa using shannon_entropy_bounds arr01 2 (by with_unfolding_all decide) (by decide)⟩

/-! ### Claim C7: the joint histogram of a pair with itself is diagonal -/

theorem entropyOf_nil : entropyOf [] = 0 := by
  rw [entropyOf]
  simp

theorem zip_self (l : List ℚ) : l.zip l = l.map (fun v => (v, v)) := by
  rw [List.zip, List.zipWith_same]

theorem hist2_self (x : List ℚ) (bins i j : ℕ) :
    hist2 x x bins i j = if i = j then hist x bins i else 0 := by
  rw [hist2, zip_self, List.countP_map]
  by_cases hij : i = j
  · subst hij
    rw [if_pos rfl, hist]
    refine List.countP_congr ?_
    intro a _
    simp [Function.comp]
  · rw [if_neg hij]
    refine List.countP_eq_zero.mpr ?_
    intro a _
    simp only [Function.comp_apply, decide_eq_true_eq, not_and]
    intro h1 h2
    exact hij (h1.symm.trans h2)

theorem sum_map_flatMap {α β M : Type*} [AddCommMonoid M] (l : List α)
    (f : α → List β) (g : β → M) :
    ((l.flatMap f).map g).sum = (l.map (fun a => ((f a).map g).sum)).sum := by
  induction l with
  | nil => simp
  | cons a t ih => simp [ih]

theorem cell_sum {M : Type*} [AddCommMonoid M] (bins : ℕ) (h : ℕ × ℕ → M) :
    ((cellList bins).map h).sum =
      ∑ i ∈ Finset.range bins, ∑ j ∈ Finset.range bins, h (i, j) := by
  rw [cellList, sum_map_flatMap, sum_map_range]
  refine Finset.sum_congr rfl (fun i _ => ?_)
  rw [List.map_map, sum_map_range]
  rfl

theorem hist2Total_self (x : List ℚ) (bins : ℕ) :
    hist2Total x x bins = histTotal x bins := by
  rw [hist2Total, cell_sum, histTotal_eq]
  refine Finset.sum_congr rfl (fun i hi => ?_)
  simp only [hist2_self]
  rw [Finset.sum_ite_eq]
  rw [if_pos hi]

theorem joint_probs_self_entropy (x : List ℚ) (bins : ℕ) :
    entropyOf (jointProbs x x bins) = entropyOf (probs x bins) := by
  rw [entropyOf_eq, entropyOf_eq, jointProbs, probs, List.map_map, List.map_map,
    cell_sum, sum_map_range]
  refine Finset.sum_congr rfl (fun i hi => ?_)
  simp only [Function.comp_apply, hist2_self, hist2Total_self]
  rw [show (∑ j ∈ Finset.range bins, Real.negMulLog
      ((((if i = j then hist x bins i else 0 : ℕ) : ℚ) /
        (histTotal x bins : ℚ) : ℚ) : ℝ)) =
    ∑ j ∈ Finset.range bins, if i = j then Real.negMulLog
      (((hist x bins i : ℚ) / (histTotal x bins : ℚ) : ℚ) : ℝ) else 0 from
    Finset.sum_congr rfl (fun j _ => by
      by_cases hij : i = j
      · rw [if_pos hij, if_pos hij]
      · rw [if_neg hij, if_neg hij]
        simp)]
  rw [Finset.sum_ite_eq, if_pos hi]

/-- Claim C7: `mutual_information(x, x, bins)` equals `shannon_entropy(x, bins)`
exactly, because the joint histogram of `(x, x)` places all mass on diagonal
cells whose counts are the 1-D histogram counts, so `H(X,X) = H(X)`. -/
theorem mutual_information_self (x : NDArray) (bins : ℕ)
    (_hx : x.data ≠ []) (_hb : 0 < bins) :
    mutual_information x x bins = .ok (shannon_entropy x bins) := by
  rw [mutual_information, joint_entropy, if_neg (by simp)]
  show Except.ok (shannon_entropy x bins + shannon_entropy x bins -
    entropyOf (jointProbs x.data x.data bins)) = _
  rw [joint_probs_self_entropy,
    show entropyOf (probs x.data bins) = shannon_entropy x bins from rfl]
  congr 1
  ring

/-- Witness for C7 at the array `[0, 1]` with 2 bins. -/
theorem mutual_information_self_witness :
    arr01.data ≠ [] ∧ 0 < 2 ∧
      mutual_information arr01 arr01 2 = .ok (shannon_entropy arr01 2) :=
  ⟨by with_unfolding_all decide, by decide,
    mutual_information_self arr01 2 (by with_unfolding_all decide) (by decide)⟩

/-! ### Claim C8 -/

/-- Claim C8: for equal-shaped arrays whose joint entropy is exactly zero,
`normalized_mutual_information` yields the non-finite float (modelled `none`)
wrapped in a normal return — not a raised exception. -/
theorem nmi_zero_joint_entropy (x x_ref : NDArray) (bins : ℕ)
    (_hs : x.shape = x_ref.shape)
    (hje : joint_entropy x x_ref bins = .ok 0) :
    normalized_mutual_information x x_ref bins = .ok none := by
  rw [normalized_mutual_information, hje]
  simp

/-- Witness for C8 at the degenerate single-valued pair `[1,1]`, `[2,2]` with
one bin, whose joint entropy is exactly zero. -/
theorem nmi_zero_joint_entropy_witness :
    arrkonst1.shape = arrkonst2.shape ∧
      joint_entropy arrkonst1 arrkonst2 1 = .ok 0 ∧
      normalized_mutual_information arrkonst1 arrkonst2 1 = .ok none := by
  have hje : joint_entropy arrkonst1 arrkonst2 1 = .ok 0 := by
    rw [joint_entropy, if_neg (by decide)]
    rw [show jointProbs arrkonst1.data arrkonst2.data 1 = [1] from by
      with_unfolding_all decide]
    rw [show ([1] : List ℚ) = 1 :: [] from rfl, entropyOf_cons, entropyOf_nil]
    simp
  exact ⟨rfl, hje, nmi_zero_joint_entropy arrkonst1 arrkonst2 1 rfl hje⟩

/-! ### Claim C9 -/

/-- Claim C9: when `datarange` is not given, both `psnr` and `ssim` hand the
external routine the data range `max(x_ref) − min(min(x), min(x_ref))`
truncated to an integer — the reference-biased range, using only `x_ref`'s
maximum. -/
theorem datarange_inference (P : NDArray → NDArray → ℚ → ℝ)
    (S : NDArray → NDArray → ℚ → ℝ × List ℝ) (x x_ref : NDArray)
    (mask : Option NDArray)
    (hx : x.data ≠ []) (hy : x_ref.data ≠ []) (hs : x_ref.shape = x.shape)
    (hg1 : x.shape.tail.prod = 1)
    (hg2 : ¬(absDiffSum x x_ref < (1 : ℚ) / 10 ^ 13)) :
    psnr P x x_ref none = .ok (some (P x x_ref
      ((qtrunc (listMax x_ref.data - min (listMin x.data) (listMin x_ref.data)) : ℤ) : ℚ))) ∧
    ssim S x x_ref mask none = .ok (pick_ssim (S x_ref x
      ((qtrunc (listMax x_ref.data - min (listMin x.data) (listMin x_ref.data)) : ℤ) : ℚ)) mask) := by
  have hdr : effDatarangeE x x_ref none = .ok
      ((qtrunc (listMax x_ref.data - min (listMin x.data) (listMin x_ref.data)) : ℤ) : ℚ) := by
    rw [effDatarangeE]
    rw [if_pos (show falsyDatarange none = true from rfl)]
    rw [if_neg (by simp [hx, hy])]
  have hcond : ¬(x_ref.shape ≠ x.shape) := by simp [hs]
  have hcond1 : ¬(x.shape.tail.prod ≠ 1) := by simp [hg1]
  constructor
  · simp only [psnr, hdr, if_neg hcond1, if_neg hg2]
  · simp only [ssim, hdr, if_neg hcond]

/-- The 1-D array `[4, 0]`. -/
def arr40 : NDArray := ⟨[2], [4, 0], rfl⟩

/-- Witness for C9 at the pair `[1, 3]` vs `[4, 0]`: the inferred range is
`4 − min(1, 0) = 4`. -/
theorem datarange_inference_witness :
    arr13.data ≠ [] ∧ arr40.data ≠ [] ∧ arr40.shape = arr13.shape ∧
      arr13.shape.tail.prod = 1 ∧
      ¬(absDiffSum arr13 arr40 < (1 : ℚ) / 10 ^ 13) ∧
      psnr (fun _ _ _ => (0 : ℝ)) arr13 arr40 none = .ok (some ((fun _ _ _ => (0 : ℝ)) arr13 arr40
        ((qtrunc (listMax arr40.data - min (listMin arr13.data) (listMin arr40.data)) : ℤ) : ℚ))) ∧
      ssim (fun _ _ _ => ((1 : ℝ), ([] : List ℝ))) arr13 arr40 none none =
        .ok (pick_ssim ((fun _ _ _ => ((1 : ℝ), ([] : List ℝ))) arr40 arr13
          ((qtrunc (listMax arr40.data - min (listMin arr13.data) (listMin arr40.data)) : ℤ) : ℚ)) none) := by
  have h := datarange_inference (fun _ _ _ => (0 : ℝ))
    (fun _ _ _ => ((1 : ℝ), ([] : List ℝ))) arr13 arr40 none
    (by with_unfolding_all decide) (by with_unfolding_all decide) rfl
    (by decide) (by with_unfolding_all decide)
  exact ⟨by with_unfolding_all decide, by with_unfolding_all decide, rfl,
    by decide, by with_unfolding_all decide, h.1, h.2⟩
